import Mathlib

/-!
Verification of the Blackboard component of BehaviorTree.CPP
(src/include/behaviortree_cpp/blackboard.h), a hierarchically-scoped,
type-erased key-value store.

Embedding notes.
* A C++ Blackboard instance owns a storage map (string to Entry), a remap
  table internal_to_external_, and a weak pointer to a parent Blackboard.
  An operation only ever walks the chain of live ancestors of one instance,
  so a blackboard together with its live ancestors is modelled as a
  nonempty list of scopes: the head is the instance, the tail its chain of
  ancestors that are still alive.  A dead (expired) parent makes
  parent_bb_.lock() fail, exactly as an empty tail does here.
* The type-erasure container Any (utils/safe_any.hpp) is not under src/;
  only blackboard.h, its caller, is.  It is modelled from the spec as a
  capability: it holds one value of an unknown type or is empty, exposes
  the run-time type of the held value, and attempts a safe downcast that
  fails distinctly from a missing key.
* std::type_info identities become a small closed universe Ty of supported
  types; values become the matching tagged universe Val.
* Exceptions become an explicit error component: an operation that throws
  in C++ returns the error together with the state the store is left in.
-/

namespace BTBB

/-- Run-time type identities, standing for the std::type_info pointers the
source compares (typeid(T), locked_port_type, Any::type()). -/
inductive Ty where
  | tint
  | tstr
  | tbool
  deriving DecidableEq

/-- Modelled from the spec: the values a type-erased holder can contain.
The erasure capability (safe_any.hpp, not under src/) can hold a value of
any supported type together with its run-time type tag. -/
inductive Val where
  | vint (n : Int)
  | vstr (s : String)
  | vbool (b : Bool)
  deriving DecidableEq

/-- The run-time type recorded for a stored value (Any::type()). -/
def Val.ty : Val → Ty
  | .vint _ => .tint
  | .vstr _ => .tstr
  | .vbool _ => .tbool

/-- Modelled from the spec: Any::isString(), the string-compatible escape
hatch of the write path; a value is string-compatible when it is a string
representation. -/
def Val.isString : Val → Bool
  | .vstr _ => true
  | _ => false

/-- Modelled from the spec: the type-erased container of safe_any.hpp.  It
holds exactly one value or none (a default-constructed Any, as in the
placeholder entries of the write path, is empty). -/
inductive Any where
  | empty
  | val (v : Val)
  deriving DecidableEq

/-- The error taxonomy of the spec.  MissingKey carries the requested key;
TypeLockViolation carries the declared (locked) type and the offered
static type, as the thrown message does in Blackboard::set. -/
inductive BTError where
  | MissingKey (key : String)
  | BadCast
  | TypeLockViolation (declared offered : Ty)
  deriving DecidableEq

/-- Modelled from the spec: the safe downcast of the erasure capability.
It recovers the held value typed, failing distinctly from a missing key
when the requested type disagrees with the stored one or no value is held. -/
def Any.cast : Any → Ty → Except BTError Val
  | .empty, _ => .error .BadCast
  | .val v, t => if v.ty = t then .ok v else .error .BadCast

/-- Blackboard::Entry: a type-erased value (possibly empty) and an optional
locked port type. -/
structure Entry where
  value : Any
  locked_port_type : Option Ty
  deriving DecidableEq

/-- Association-list lookup, playing the role of unordered_map::find. -/
def lookupK {α : Type} : List (String × α) → String → Option α
  | [], _ => none
  | (k, a) :: rest, key => if k = key then some a else lookupK rest key

/-- Association-list write: replace the binding if the key is present,
append it otherwise (unordered_map insert/emplace and mapped-value
assignment; keys stay unique). -/
def setK {α : Type} : List (String × α) → String → α → List (String × α)
  | [], key, a => [(key, a)]
  | (k, b) :: rest, key, a =>
      if k = key then (k, a) :: rest else (k, b) :: setK rest key a

/-- One Blackboard instance viewed in isolation: its storage map and its
internal-to-external remap table.  The parent pointer is represented by
the position in a Chain. -/
structure Blackboard where
  storage : List (String × Entry)
  internal_to_external : List (String × String)
  deriving DecidableEq

/-- A blackboard together with its chain of live ancestors: the head is
the instance an operation starts on, the tail the live parent chain.  An
empty tail means the weak parent pointer is empty or expired. -/
abbrev Chain := List Blackboard

/-- Blackboard::getAny (blackboard.h lines 50-64): if a parent is alive
and the key is remapped, recursively delegate to the parent under the
external key; otherwise look the key up locally, returning a pointer to
the entry value (nullptr, here none, when the key is absent). -/
def getAny : Chain → String → Option Any
  | [], _ => none
  | s :: rest, key =>
    match rest with
    | p :: rest' =>
      match lookupK s.internal_to_external key with
      | some ext => getAny (p :: rest') ext
      | none => (lookupK s.storage key).map Entry.value
    | [] => (lookupK s.storage key).map Entry.value

/-- The non-forwarded tail of Blackboard::set (blackboard.h lines
135-153): check the type lock of an existing entry, throwing
TypeLockViolation when the locked type differs from both the static type
and the erased value type and the value is not string-compatible;
otherwise move the new erased value into the entry, or create a fresh
entry without a lock.  The returned chain is the state the store is left
in, also on the throwing path. -/
def setLocal (s : Blackboard) (rest : List Blackboard) (t : Ty) (key : String)
    (v : Val) : Chain × Option BTError :=
  match lookupK s.storage key with
  | some e =>
    match e.locked_port_type with
    | some lt =>
      if lt ≠ t ∧ lt ≠ v.ty ∧ v.isString = false then
        (s :: rest, some (BTError.TypeLockViolation lt t))
      else
        (⟨setK s.storage key ⟨Any.val v, e.locked_port_type⟩,
          s.internal_to_external⟩ :: rest, none)
    | none =>
        (⟨setK s.storage key ⟨Any.val v, e.locked_port_type⟩,
          s.internal_to_external⟩ :: rest, none)
  | none =>
      (⟨setK s.storage key ⟨Any.val v, none⟩,
        s.internal_to_external⟩ :: rest, none)

/-- Blackboard::set (blackboard.h lines 115-154).  With a live parent and
a remapped key: insert a valueless placeholder entry recording the static
type when no local entry exists, then delegate to the parent under the
external key.  Otherwise fall through to the local write.  The Ty
argument is typeid(T); the Val argument carries its own erased run-time
type, as the constructed Any does. -/
def set : Chain → Ty → String → Val → Chain × Option BTError
  | [], _, _, _ => ([], none)
  | s :: rest, t, key, v =>
    match rest with
    | p :: rest' =>
      match lookupK s.internal_to_external key with
      | some ext =>
        let storage' :=
          if (lookupK s.storage key).isNone then
            setK s.storage key ⟨Any.empty, some t⟩
          else s.storage
        let r := set (p :: rest') t ext v
        (⟨storage', s.internal_to_external⟩ :: r.1, r.2)
      | none => setLocal s (p :: rest') t key v
    | [] => setLocal s [] t key v

/-- The throwing typed read, T get(key) (blackboard.h lines 99-111): read
the erased value, throw the missing-key error when it is absent, downcast
otherwise. -/
def get (c : Chain) (t : Ty) (key : String) : Except BTError Val :=
  match getAny c key with
  | some a => a.cast t
  | none => .error (.MissingKey key)

/-- The non-throwing typed read, bool get(key, value) (blackboard.h lines
85-94).  The result records, in order: the exception the call propagates
(none when it returns normally), the returned bool, and the final content
of the caller output variable.  The C++ body evaluates the cast before
assigning to the output, so on a cast failure the output keeps its old
content. -/
def tryGet (c : Chain) (t : Ty) (key : String) (out : Val) :
    Option BTError × Bool × Val :=
  match getAny c key with
  | some a =>
    match a.cast t with
    | .ok v => (none, true, v)
    | .error e => (some e, false, out)
  | none => (none, false, out)

/-- Modelled from the spec: setPortType is declared in blackboard.h (line
156) but its definition is not under src/.  Per spec section 4.5 it pins
the lockedType of the local Entry independently of set, creating a
valueless Entry when none exists; the first declared type is
authoritative, so an already-locked Entry is left unchanged. -/
def setPortType (c : Chain) (key : String) (t : Ty) : Chain :=
  match c with
  | [] => []
  | s :: rest =>
    match lookupK s.storage key with
    | some e =>
      match e.locked_port_type with
      | some _ => s :: rest
      | none =>
          ⟨setK s.storage key ⟨e.value, some t⟩, s.internal_to_external⟩ :: rest
    | none =>
        ⟨setK s.storage key ⟨Any.empty, some t⟩, s.internal_to_external⟩ :: rest

theorem lookupK_setK_self {α : Type} (l : List (String × α)) (k : String)
    (a : α) : lookupK (setK l k a) k = some a := by
  induction l with
  | nil => simp [setK, lookupK]
  | cons hd tl ih =>
    obtain ⟨k', b⟩ := hd
    by_cases h : k' = k
    · simp [setK, lookupK, h]
    · simp [setK, lookupK, h, ih]

theorem lookupK_setK_ne {α : Type} (l : List (String × α)) (k j : String)
    (a : α) (hne : j ≠ k) : lookupK (setK l k a) j = lookupK l j := by
  have hkj : ¬ k = j := fun h => hne h.symm
  induction l with
  | nil => simp [setK, lookupK, hkj]
  | cons hd tl ih =>
    obtain ⟨k', b⟩ := hd
    by_cases h : k' = k
    · subst h
      simp [setK, lookupK, hkj]
    · by_cases h2 : k' = j
      · simp [setK, lookupK, h, h2, hne]
      · simp [setK, lookupK, h, h2, ih]

/-- Claim C4: forwarded read.  When the parent chain is alive and the key
is in the remap table, getAny returns exactly the parent read-path result
for the mapped external key, without consulting local storage; and when
the read is not forwarded, an unknown key yields absent (none), never an
error. -/
theorem getAny_forwarded_spec (s : Blackboard) (rest : List Blackboard)
    (k : String) :
    (∀ p rest' ext, rest = p :: rest' →
        lookupK s.internal_to_external k = some ext →
        getAny (s :: rest) k = getAny rest ext) ∧
    ((rest = [] ∨ lookupK s.internal_to_external k = none) →
        lookupK s.storage k = none → getAny (s :: rest) k = none) := by
  constructor
  · intro p rest' ext hrest hext
    subst hrest
    simp [getAny, hext]
  · intro hloc hst
    rcases hloc with h | h
    · subst h
      simp [getAny, hst]
    · cases rest with
      | nil => simp [getAny, hst]
      | cons p rest' => simp [getAny, h, hst]

theorem getAny_forwarded_spec_w :
    getAny [⟨[], [("a", "b")]⟩, ⟨[("b", ⟨Any.val (Val.vint 3), none⟩)], []⟩] "a"
      = getAny [⟨[("b", ⟨Any.val (Val.vint 3), none⟩)], []⟩] "b"
    ∧ getAny [(⟨[], []⟩ : Blackboard)] "zzz" = none :=
  ⟨(getAny_forwarded_spec ⟨[], [("a", "b")]⟩
      [⟨[("b", ⟨Any.val (Val.vint 3), none⟩)], []⟩] "a").1
      ⟨[("b", ⟨Any.val (Val.vint 3), none⟩)], []⟩ [] "b" rfl rfl,
   (getAny_forwarded_spec ⟨[], []⟩ [] "zzz").2 (Or.inl rfl) rfl⟩

/-- Claim C5, amended: the throwing get raises MissingKey exactly when the
key resolves, after remap chasing, to no Entry at all.  An Entry that
exists but holds no value is returned by getAny as a pointer to its empty
erased value, so the subsequent downcast fails with BadCast instead. -/
theorem get_missingKey_iff (c : Chain) (t : Ty) (k : String) :
    get c t k = Except.error (BTError.MissingKey k) ↔ getAny c k = none := by
  cases h : getAny c k with
  | none => simp [get, h]
  | some a =>
    simp [get, h]
    cases a with
    | empty => simp [Any.cast]
    | val v =>
      simp [Any.cast]
      split <;> simp

/-- Claim C5, counterexample to the claim as stated: a reachable state
(child remapped key whose parent expired after the forwarded set created
the placeholder) where the key resolves to an Entry holding no value, yet
the throwing get does not raise MissingKey: getAny returns the entry
value pointer even though the Any is empty, and the cast fails with
BadCast. -/
theorem missingKey_cex :
    getAny [⟨[("a", ⟨Any.empty, some Ty.tint⟩)], [("a", "b")]⟩] "a"
        = some Any.empty
    ∧ get [⟨[("a", ⟨Any.empty, some Ty.tint⟩)], [("a", "b")]⟩] Ty.tint "a"
        = Except.error BTError.BadCast
    ∧ BTError.BadCast ≠ BTError.MissingKey "a" :=
  ⟨rfl, rfl, by decide⟩

/-- Claim C8: for a key that resolves (after remap chasing) to no entry,
the non-throwing read returns false and leaves the caller output variable
unmodified, and the throwing get fails with MissingKey carrying the key. -/
theorem missing_key_read_spec (c : Chain) (t : Ty) (k : String) (out : Val)
    (h : getAny c k = none) :
    tryGet c t k out = (none, false, out)
    ∧ get c t k = Except.error (BTError.MissingKey k) := by
  constructor
  · simp [tryGet, h]
  · simp [get, h]

theorem missing_key_read_spec_w :
    tryGet [(⟨[], []⟩ : Blackboard)] Ty.tint "missing" (Val.vint 7)
        = (none, false, Val.vint 7)
    ∧ get [(⟨[], []⟩ : Blackboard)] Ty.tint "missing"
        = Except.error (BTError.MissingKey "missing") :=
  missing_key_read_spec [⟨[], []⟩] Ty.tint "missing" (Val.vint 7) rfl

/-- Claim C10: when the resolved entry holds a value that cannot be
downcast to the requested type, the non-throwing read propagates the cast
error and leaves the caller output variable unmodified, because the C++
body evaluates the cast before assigning to the output. -/
theorem tryGet_castError_out_unchanged (c : Chain) (t : Ty) (k : String)
    (out : Val) (a : Any) (e : BTError)
    (hget : getAny c k = some a) (hcast : a.cast t = Except.error e) :
    tryGet c t k out = (some e, false, out) := by
  simp [tryGet, hget, hcast]

theorem tryGet_castError_out_unchanged_w :
    tryGet [(⟨[("k", ⟨Any.val (Val.vstr "x"), none⟩)], []⟩ : Blackboard)]
        Ty.tint "k" (Val.vint 7)
      = (some BTError.BadCast, false, Val.vint 7) :=
  tryGet_castError_out_unchanged
    [⟨[("k", ⟨Any.val (Val.vstr "x"), none⟩)], []⟩]
    Ty.tint "k" (Val.vint 7) (Any.val (Val.vstr "x")) BTError.BadCast rfl rfl

theorem set_local_route (s : Blackboard) (rest : List Blackboard) (t : Ty)
    (k : String) (v : Val)
    (hlocal : rest = [] ∨ lookupK s.internal_to_external k = none) :
    set (s :: rest) t k v = setLocal s rest t k v := by
  rcases hlocal with h | h
  · subst h
    simp [set]
  · cases rest with
    | nil => simp [set]
    | cons p rest' => simp [set, h]

/-- Claim C2: on the non-forwarded write path, when the local Entry for
the key carries a locked type that differs from both the static type and
the erased value type and the value is not string-compatible, set fails
with TypeLockViolation carrying the declared and the offered type names
and the whole store (previous value and lock included) is unchanged; in
every other case set replaces the stored value, keeping the lock. -/
theorem set_typeLockViolation_spec (s : Blackboard) (rest : List Blackboard)
    (t : Ty) (k : String) (v : Val) (e : Entry)
    (hlocal : rest = [] ∨ lookupK s.internal_to_external k = none)
    (hent : lookupK s.storage k = some e) :
    (∀ lt, e.locked_port_type = some lt → lt ≠ t → lt ≠ v.ty →
        v.isString = false →
        set (s :: rest) t k v
          = (s :: rest, some (BTError.TypeLockViolation lt t))) ∧
    ((∀ lt, e.locked_port_type = some lt → lt = t ∨ lt = v.ty ∨ v.isString = true) →
        set (s :: rest) t k v
          = (⟨setK s.storage k ⟨Any.val v, e.locked_port_type⟩,
              s.internal_to_external⟩ :: rest, none)) := by
  rw [set_local_route s rest t k v hlocal]
  constructor
  · intro lt hlt h1 h2 h3
    simp [setLocal, hent, hlt, h1, h2, h3]
  · intro hok
    cases hl : e.locked_port_type with
    | none => simp [setLocal, hent, hl]
    | some lt =>
      have hcase := hok lt hl
      have hcond : ¬ (lt ≠ t ∧ lt ≠ v.ty ∧ v.isString = false) := by
        rcases hcase with h | h | h
        · exact fun hc => hc.1 h
        · exact fun hc => hc.2.1 h
        · exact fun hc => by rw [h] at hc; exact Bool.noConfusion hc.2.2
      simp [setLocal, hent, hl, if_neg hcond]

theorem set_typeLockViolation_spec_w :
    set [(⟨[("k", ⟨Any.val (Val.vint 1), some Ty.tint⟩)], []⟩ : Blackboard)]
        Ty.tbool "k" (Val.vbool true)
      = ([⟨[("k", ⟨Any.val (Val.vint 1), some Ty.tint⟩)], []⟩],
         some (BTError.TypeLockViolation Ty.tint Ty.tbool)) :=
  (set_typeLockViolation_spec ⟨[("k", ⟨Any.val (Val.vint 1), some Ty.tint⟩)], []⟩
      [] Ty.tbool "k" (Val.vbool true) ⟨Any.val (Val.vint 1), some Ty.tint⟩
      (Or.inl rfl) rfl).1
    Ty.tint rfl (by decide) (by decide) rfl

/-- Claim C6: string exemption.  A locally stored key locked to a
non-string type may still be overwritten by a string-compatible value:
set succeeds without TypeLockViolation and replaces the stored value,
keeping the lock. -/
theorem set_string_exemption (s : Blackboard) (rest : List Blackboard)
    (t : Ty) (k : String) (v : Val) (e : Entry) (lt : Ty)
    (hlocal : rest = [] ∨ lookupK s.internal_to_external k = none)
    (hent : lookupK s.storage k = some e)
    (hlock : e.locked_port_type = some lt)
    (hns : lt ≠ Ty.tstr)
    (hstr : v.isString = true) :
    set (s :: rest) t k v
      = (⟨setK s.storage k ⟨Any.val v, some lt⟩,
          s.internal_to_external⟩ :: rest, none) := by
  rw [set_local_route s rest t k v hlocal]
  have hcond : ¬ (lt ≠ t ∧ lt ≠ v.ty ∧ v.isString = false) := by
    intro hc
    rw [hstr] at hc
    exact Bool.noConfusion hc.2.2
  simp [setLocal, hent, hlock, if_neg hcond]

theorem set_string_exemption_w :
    set [(⟨[("k", ⟨Any.val (Val.vint 1), some Ty.tint⟩)], []⟩ : Blackboard)]
        Ty.tstr "k" (Val.vstr "now a string")
      = ([⟨[("k", ⟨Any.val (Val.vstr "now a string"), some Ty.tint⟩)], []⟩],
         none) :=
  set_string_exemption ⟨[("k", ⟨Any.val (Val.vint 1), some Ty.tint⟩)], []⟩
    [] Ty.tstr "k" (Val.vstr "now a string")
    ⟨Any.val (Val.vint 1), some Ty.tint⟩ Ty.tint
    (Or.inl rfl) rfl rfl (by decide) rfl

/-- Claim C3: forwarded write.  With a live parent and a remapped key, set
creates a local placeholder Entry holding no value but recording the
static type when no local Entry exists (an existing local storage is left
untouched), changes no other local key and not the remap table, and
delegates the write to the parent chain under the mapped external key,
returning the parent outcome. -/
theorem set_forwarded_spec (s p : Blackboard) (rest' : List Blackboard)
    (t : Ty) (k ext : String) (v : Val)
    (hremap : lookupK s.internal_to_external k = some ext) :
    (set (s :: p :: rest') t k v).2 = (set (p :: rest') t ext v).2
    ∧ ∃ st',
        (set (s :: p :: rest') t k v).1
          = ⟨st', s.internal_to_external⟩ :: (set (p :: rest') t ext v).1
        ∧ (lookupK s.storage k = none →
            lookupK st' k = some ⟨Any.empty, some t⟩)
        ∧ (∀ e, lookupK s.storage k = some e → st' = s.storage)
        ∧ (∀ j, j ≠ k → lookupK st' j = lookupK s.storage j) := by
  refine ⟨by simp [set, hremap], ?_⟩
  refine ⟨if (lookupK s.storage k).isNone then
            setK s.storage k ⟨Any.empty, some t⟩ else s.storage,
          by simp [set, hremap], ?_, ?_, ?_⟩
  · intro habs
    simp [habs, lookupK_setK_self]
  · intro e hsome
    simp [hsome]
  · intro j hj
    cases habs : lookupK s.storage k with
    | none => simp [habs, lookupK_setK_ne s.storage k j _ hj]
    | some e => simp [habs]

theorem set_forwarded_spec_w :
    (set [(⟨[], [("a", "b")]⟩ : Blackboard), ⟨[], []⟩] Ty.tint "a" (Val.vint 5)).2
      = (set [(⟨[], []⟩ : Blackboard)] Ty.tint "b" (Val.vint 5)).2 :=
  (set_forwarded_spec ⟨[], [("a", "b")]⟩ ⟨[], []⟩ [] Ty.tint "a" "b"
      (Val.vint 5) rfl).1

/-- Every entry present in the old storage is still present with exactly
the same locked_port_type. -/
def entryLocksPreserved (stOld stNew : List (String × Entry)) : Prop :=
  ∀ j e, lookupK stOld j = some e →
    ∃ e2, lookupK stNew j = some e2
      ∧ e2.locked_port_type = e.locked_port_type

/-- Levelwise lock preservation along a whole ancestor chain. -/
def locksPreserved : Chain → Chain → Prop
  | [], [] => True
  | a :: as, b :: bs =>
      entryLocksPreserved a.storage b.storage ∧ locksPreserved as bs
  | _, _ => False

theorem elp_refl (st : List (String × Entry)) : entryLocksPreserved st st :=
  fun _ e h => ⟨e, h, rfl⟩

theorem elp_setK_absent (st : List (String × Entry)) (k : String) (e2 : Entry)
    (habs : lookupK st k = none) : entryLocksPreserved st (setK st k e2) := by
  intro j e hj
  have hne : j ≠ k := by
    intro h
    rw [h, habs] at hj
    exact Option.noConfusion hj
  exact ⟨e, by rw [lookupK_setK_ne st k j e2 hne]; exact hj, rfl⟩

theorem elp_setK_preserve (st : List (String × Entry)) (k : String)
    (e e2 : Entry) (hent : lookupK st k = some e)
    (hl : e2.locked_port_type = e.locked_port_type) :
    entryLocksPreserved st (setK st k e2) := by
  intro j e3 hj
  by_cases hjk : j = k
  · subst hjk
    rw [hj] at hent
    cases hent
    exact ⟨e2, lookupK_setK_self st j e2, hl⟩
  · exact ⟨e3, by rw [lookupK_setK_ne st k j e2 hjk]; exact hj, rfl⟩

theorem locksPreserved_refl (c : Chain) : locksPreserved c c := by
  induction c with
  | nil => trivial
  | cons s rest ih => exact ⟨elp_refl s.storage, ih⟩

theorem setLocal_locks (s : Blackboard) (rest : List Blackboard) (t : Ty)
    (k : String) (v : Val) :
    locksPreserved (s :: rest) (setLocal s rest t k v).1 := by
  cases hent : lookupK s.storage k with
  | none =>
    simp only [setLocal, hent]
    exact ⟨elp_setK_absent s.storage k _ hent, locksPreserved_refl rest⟩
  | some e =>
    cases hl : e.locked_port_type with
    | none =>
      simp only [setLocal, hent, hl]
      exact ⟨elp_setK_preserve s.storage k e _ hent hl.symm,
             locksPreserved_refl rest⟩
    | some lt =>
      simp only [setLocal, hent, hl]
      by_cases hc : lt ≠ t ∧ lt ≠ v.ty ∧ v.isString = false
      · rw [if_pos hc]
        exact ⟨elp_refl s.storage, locksPreserved_refl rest⟩
      · rw [if_neg hc]
        exact ⟨elp_setK_preserve s.storage k e _ hent hl.symm,
               locksPreserved_refl rest⟩

/-- Claim C7: monotonic lock invariant.  A set, at every level of the
ancestor chain it touches and whether it succeeds or fails, leaves the
locked_port_type of every already existing Entry exactly as it was: the
throwing path changes nothing, the replacing path moves a new value into
the entry keeping its lock, and forwarding at most inserts a fresh
placeholder without touching existing entries. -/
theorem set_locks_monotone (c : Chain) (t : Ty) (v : Val) :
    ∀ k, locksPreserved c (set c t k v).1 := by
  induction c with
  | nil =>
    intro k
    simp only [set]
    trivial
  | cons s rest ih =>
    intro k
    cases rest with
    | nil => exact setLocal_locks s [] t k v
    | cons p rest' =>
      cases hre : lookupK s.internal_to_external k with
      | none =>
        have hroute : set (s :: p :: rest') t k v
            = setLocal s (p :: rest') t k v := by
          simp [set, hre]
        rw [hroute]
        exact setLocal_locks s (p :: rest') t k v
      | some ext =>
        have hmain : (set (s :: p :: rest') t k v).1
            = ⟨(if (lookupK s.storage k).isNone then
                  setK s.storage k ⟨Any.empty, some t⟩ else s.storage),
               s.internal_to_external⟩ :: (set (p :: rest') t ext v).1 := by
          simp [set, hre]
        rw [hmain]
        constructor
        · cases habs : lookupK s.storage k with
          | none =>
            simpa [habs] using elp_setK_absent s.storage k ⟨Any.empty, some t⟩ habs
          | some e => simpa [habs] using elp_refl s.storage
        · exact ih ext

/-- Claim C1, amended: round-trip holds whenever the write goes through.
For a key that is not remapped on the instance, a set of value v at the
type of v that returns no error, followed by a get at that type, returns
exactly v. -/
theorem roundTrip_of_set_ok (s : Blackboard) (rest : List Blackboard)
    (k : String) (v : Val)
    (hnr : lookupK s.internal_to_external k = none)
    (hok : (set (s :: rest) v.ty k v).2 = none) :
    get (set (s :: rest) v.ty k v).1 v.ty k = Except.ok v := by
  have hroute : set (s :: rest) v.ty k v = setLocal s rest v.ty k v :=
    set_local_route s rest v.ty k v (Or.inr hnr)
  rw [hroute] at hok ⊢
  cases hent : lookupK s.storage k with
  | none =>
    simp only [setLocal, hent]
    cases rest with
    | nil => simp [get, getAny, lookupK_setK_self, Any.cast]
    | cons p rest' => simp [get, getAny, hnr, lookupK_setK_self, Any.cast]
  | some e =>
    cases hl : e.locked_port_type with
    | none =>
      simp only [setLocal, hent, hl]
      cases rest with
      | nil => simp [get, getAny, lookupK_setK_self, Any.cast]
      | cons p rest' => simp [get, getAny, hnr, lookupK_setK_self, Any.cast]
    | some lt =>
      by_cases hc : lt ≠ v.ty ∧ lt ≠ v.ty ∧ v.isString = false
      · simp only [setLocal, hent, hl, if_pos hc] at hok
        exact Option.noConfusion hok
      · simp only [setLocal, hent, hl, if_neg hc]
        cases rest with
        | nil => simp [get, getAny, lookupK_setK_self, Any.cast]
        | cons p rest' => simp [get, getAny, hnr, lookupK_setK_self, Any.cast]

theorem roundTrip_of_set_ok_w :
    get (set [(⟨[], []⟩ : Blackboard)] (Val.vint 5).ty "k" (Val.vint 5)).1
        (Val.vint 5).ty "k" = Except.ok (Val.vint 5) :=
  roundTrip_of_set_ok ⟨[], []⟩ [] "k" (Val.vint 5) rfl rfl

/-- Claim C1, counterexample to the claim as stated: on a key that is not
remapped on the instance but carries a conflicting type lock (installed
here through setPortType, modelled from the spec), set fails with
TypeLockViolation and the following get at the written type does not
return the just-written value: the previous value is still stored and
its downcast to the requested type fails. -/
theorem roundTrip_cex :
    lookupK (Blackboard.internal_to_external ⟨[], []⟩) "k" = none
    ∧ get (set (set (setPortType [(⟨[], []⟩ : Blackboard)] "k" Ty.tstr)
          Ty.tstr "k" (Val.vstr "old")).1 Ty.tint "k" (Val.vint 5)).1
          Ty.tint "k"
        = Except.error BTError.BadCast
    ∧ (Except.error BTError.BadCast : Except BTError Val)
        ≠ Except.ok (Val.vint 5) :=
  ⟨rfl, rfl, fun h => Except.noConfusion h⟩

end BTBB
